import Mathlib

/-!
Verification of src/Assets/StreamingAssets/brainbit_streamer.py.

The per-channel sample buffer is modelled as a list of columns (the numpy
arrays are 2-D, channels x samples; all operations act uniformly on whole
columns along axis 1, so a column is the unit of data).  Floating point
values that feed pure arithmetic are modelled as rationals; the float
finiteness tests performed on externally produced data (cleaned windows,
band powers, the raw ratio) are modelled as Boolean observations, since
non-finiteness is a property of the external float computation.
-/

namespace Brainbit

/-- Source line 33: WINDOW_SEC = 5. -/
def WINDOW_SEC : ℕ := 5

/-- Source line 34: BASELINE_SEC = 30. -/
def BASELINE_SEC : ℕ := 30

/-- Source line 35: LOGISTIC_GAIN = 1.2. -/
def LOGISTIC_GAIN : ℚ := 12/10

/-- Source line 36: HIGH_Z = 1.0. -/
def HIGH_Z : ℚ := 1

/-- Source line 37: LOW_Z = -1.0. -/
def LOW_Z : ℚ := -1

/-- Source line 38: EPS = 1e-12. -/
def EPS : ℚ := 1/1000000000000

/-- Source line 206: needed = sr * WINDOW_SEC (the window length in columns). -/
def neededCols (sr : ℕ) : ℕ := sr * WINDOW_SEC

/-- Source line 207: keep_cols = needed * 4 (buffer capacity). -/
def keep_cols (sr : ℕ) : ℕ := neededCols sr * 4

/-- Source lines 122-132: append new columns, keep at most max_keep latest
columns.  An empty frame returns the buffer unchanged; otherwise the frame
is concatenated and, when the result exceeds max_keep columns, only the
last max_keep columns are retained. -/
def append_buffer {α : Type} (buf : List α) (new : List α) (max_keep : ℕ) :
    List α :=
  if new.isEmpty then buf
  else
    let out := buf ++ new
    if max_keep < out.length then out.drop (out.length - max_keep) else out

/-- Source lines 134-138: return (window = oldest n cols, remainder = rest). -/
def consume_oldest {α : Type} (buf : List α) (n : ℕ) : List α × List α :=
  (buf.take n, buf.drop n)

/-- Source lines 223 and 308: the readiness guard of the main loops.  The
window is consumed only when the buffer is non-empty and holds at least
needed columns; otherwise the iteration leaves the buffer unchanged. -/
def tryConsumeWindow {α : Type} (buf : List α) (needed : ℕ) :
    Option (List α × List α) :=
  if buf.length = 0 ∨ buf.length < needed then none
  else some (consume_oldest buf needed)

/-- One operation on the accumulator: a frame of k fresh columns arriving
(source lines 220-222 / 304-306), or one window-consumption attempt
(source lines 223-229 / 308-313). -/
inductive AccOp : Type
  | accumulate (k : ℕ)
  | tryConsume

/-- Accumulator state for the window-disjointness argument: columns are
identified by a monotonically advancing global index, windows records every
window returned so far. -/
structure AccState : Type where
  buffer : List ℕ
  nextId : ℕ
  windows : List (List ℕ)

/-- Initial state: source line 217, buf = None, nothing returned yet. -/
def accInit : AccState := ⟨[], 0, []⟩

/-- One step of the main-loop buffer handling: accumulate appends k fresh
column indices through append_buffer; tryConsume consumes the oldest
needed columns when ready and otherwise changes nothing. -/
def stepOp (needed max_keep : ℕ) (s : AccState) : AccOp → AccState
  | .accumulate k =>
      { s with
        buffer := append_buffer s.buffer (List.range' s.nextId k) max_keep
        nextId := s.nextId + k }
  | .tryConsume =>
      match tryConsumeWindow s.buffer needed with
      | none => s
      | some (win, rem) =>
          { s with buffer := rem, windows := s.windows ++ [win] }

/-- Run a sequence of operations from the initial state. -/
def runOps (needed max_keep : ℕ) (ops : List AccOp) : AccState :=
  ops.foldl (stepOp needed max_keep) accInit

/-- The invariant tying the accumulator state together: the buffer is a
strictly increasing list of column indices below nextId, every column of
every returned window precedes every buffered column, returned windows come
in strictly increasing column order, and each has exactly needed columns. -/
def Inv (needed : ℕ) (s : AccState) : Prop :=
  s.buffer.Pairwise (· < ·) ∧
  (∀ x ∈ s.buffer, x < s.nextId) ∧
  (∀ w ∈ s.windows, ∀ x ∈ w, ∀ y ∈ s.buffer, x < y) ∧
  (∀ w ∈ s.windows, ∀ x ∈ w, x < s.nextId) ∧
  s.windows.Pairwise (fun a b => ∀ x ∈ a, ∀ y ∈ b, x < y) ∧
  (∀ w ∈ s.windows, w.length = needed)

theorem append_buffer_sublist {α : Type} (buf new : List α) (mk : ℕ) :
    List.Sublist (append_buffer buf new mk) (buf ++ new) := by
  unfold append_buffer
  split
  · exact List.sublist_append_left buf new
  · dsimp only
    split
    · exact List.drop_sublist _ _
    · exact List.Sublist.refl _

theorem mem_append_buffer {α : Type} {buf new : List α} {mk : ℕ} {x : α}
    (hx : x ∈ append_buffer buf new mk) : x ∈ buf ∨ x ∈ new :=
  List.mem_append.mp ((append_buffer_sublist buf new mk).subset hx)

theorem append_buffer_pairwise {buf : List ℕ} {next k mk : ℕ}
    (hp : buf.Pairwise (· < ·)) (hb : ∀ x ∈ buf, x < next) :
    (append_buffer buf (List.range' next k) mk).Pairwise (· < ·) := by
  apply List.Pairwise.sublist (append_buffer_sublist buf (List.range' next k) mk)
  rw [List.pairwise_append]
  refine ⟨hp, List.pairwise_lt_range' next k, ?_⟩
  intro a ha b hbm
  exact lt_of_lt_of_le (hb a ha) (List.mem_range'_1.mp hbm).1

theorem stepOp_tryConsume_not_ready (needed mk : ℕ) (s : AccState)
    (h : s.buffer.length < needed) :
    stepOp needed mk s .tryConsume = s := by
  have hnone : tryConsumeWindow s.buffer needed = none := if_pos (Or.inr h)
  simp [stepOp, hnone]

theorem stepOp_tryConsume_empty (needed mk : ℕ) (s : AccState)
    (h : s.buffer.length = 0) :
    stepOp needed mk s .tryConsume = s := by
  have hnone : tryConsumeWindow s.buffer needed = none := if_pos (Or.inl h)
  simp [stepOp, hnone]

theorem stepOp_tryConsume_ready (needed mk : ℕ) (s : AccState)
    (h0 : s.buffer.length ≠ 0) (h : ¬ s.buffer.length < needed) :
    stepOp needed mk s .tryConsume =
      ⟨s.buffer.drop needed, s.nextId, s.windows ++ [s.buffer.take needed]⟩ := by
  have hsome : tryConsumeWindow s.buffer needed =
      some (s.buffer.take needed, s.buffer.drop needed) := by
    unfold tryConsumeWindow consume_oldest
    rw [if_neg (by push_neg; exact ⟨h0, Nat.le_of_not_lt h⟩)]
  simp [stepOp, hsome]

theorem take_lt_drop {l : List ℕ} (hp : l.Pairwise (· < ·)) (n : ℕ) :
    ∀ x ∈ l.take n, ∀ y ∈ l.drop n, x < y := by
  rw [← List.take_append_drop n l] at hp
  exact (List.pairwise_append.mp hp).2.2

theorem inv_step (needed mk : ℕ) {s : AccState} (h : Inv needed s) (op : AccOp) :
    Inv needed (stepOp needed mk s op) := by
  obtain ⟨h1, h2, h3, h4, h5, h6⟩ := h
  cases op with
  | accumulate k =>
      refine ⟨append_buffer_pairwise h1 h2, ?_, ?_, ?_, h5, h6⟩
      · intro x hx
        rcases mem_append_buffer hx with hx | hx
        · exact lt_of_lt_of_le (h2 x hx) (Nat.le_add_right _ _)
        · exact (List.mem_range'_1.mp hx).2
      · intro w hw x hxw y hy
        rcases mem_append_buffer hy with hy | hy
        · exact h3 w hw x hxw y hy
        · exact lt_of_lt_of_le (h4 w hw x hxw) (List.mem_range'_1.mp hy).1
      · intro w hw x hx
        exact lt_of_lt_of_le (h4 w hw x hx) (Nat.le_add_right _ _)
  | tryConsume =>
      by_cases hlt : s.buffer.length < needed
      · rw [stepOp_tryConsume_not_ready needed mk s hlt]
        exact ⟨h1, h2, h3, h4, h5, h6⟩
      · by_cases h0 : s.buffer.length = 0
        · rw [stepOp_tryConsume_empty needed mk s h0]
          exact ⟨h1, h2, h3, h4, h5, h6⟩
        · rw [stepOp_tryConsume_ready needed mk s h0 hlt]
          refine ⟨?_, ?_, ?_, ?_, ?_, ?_⟩
          · exact List.Pairwise.sublist (List.drop_sublist _ _) h1
          · intro x hx
            exact h2 x ((List.drop_sublist _ _).subset hx)
          · intro w hw x hxw y hy
            rcases List.mem_append.mp hw with hw | hw
            · exact h3 w hw x hxw y ((List.drop_sublist _ _).subset hy)
            · have hw' : w = s.buffer.take needed := by simpa using hw
              subst hw'
              exact take_lt_drop h1 needed x hxw y hy
          · intro w hw x hx
            rcases List.mem_append.mp hw with hw | hw
            · exact h4 w hw x hx
            · have hw' : w = s.buffer.take needed := by simpa using hw
              subst hw'
              exact h2 x ((List.take_sublist _ _).subset hx)
          · rw [List.pairwise_append]
            refine ⟨h5, by simp, ?_⟩
            intro a ha b hb x hx y hy
            have hb' : b = s.buffer.take needed := by simpa using hb
            subst hb'
            exact h3 a ha x hx y ((List.take_sublist _ _).subset hy)
          · intro w hw
            rcases List.mem_append.mp hw with hw | hw
            · exact h6 w hw
            · have hw' : w = s.buffer.take needed := by simpa using hw
              subst hw'
              rw [List.length_take]
              exact Nat.min_eq_left (Nat.le_of_not_lt hlt)

theorem inv_init (needed : ℕ) : Inv needed accInit := by
  simp [Inv, accInit]

theorem inv_runOps (needed mk : ℕ) (ops : List AccOp) :
    Inv needed (runOps needed mk ops) := by
  unfold runOps
  have key : ∀ s, Inv needed s → Inv needed (ops.foldl (stepOp needed mk) s) := by
    induction ops with
    | nil => exact fun s hs => hs
    | cons op ops ih =>
        intro s hs
        rw [List.foldl_cons]
        exact ih _ (inv_step needed mk hs op)
  exact key accInit (inv_init needed)

theorem append_buffer_length_le {α : Type} {buf : List α} {mk : ℕ}
    (h : buf.length ≤ mk) (new : List α) :
    (append_buffer buf new mk).length ≤ mk := by
  unfold append_buffer
  split
  · exact h
  · dsimp only
    split
    · rw [List.length_drop]
      omega
    · next hno => exact Nat.le_of_not_lt hno

theorem foldl_append_buffer_length_le {α : Type} {mk : ℕ} (frames : List (List α))
    {buf : List α} (h : buf.length ≤ mk) :
    (frames.foldl (fun b f => append_buffer b f mk) buf).length ≤ mk := by
  induction frames generalizing buf with
  | nil => exact h
  | cons f fs ih =>
      rw [List.foldl_cons]
      exact ih (append_buffer_length_le h f)

theorem append_buffer_overflow {α : Type} {buf new : List α} {mk : ℕ}
    (hne : new ≠ []) (hover : mk < (buf ++ new).length) :
    append_buffer buf new mk = (buf ++ new).drop ((buf ++ new).length - mk) := by
  unfold append_buffer
  rw [if_neg (by simp [hne])]
  dsimp only
  rw [if_pos hover]

theorem append_buffer_nil {α : Type} (buf : List α) (mk : ℕ) :
    append_buffer buf [] mk = buf := by
  simp [append_buffer]

end Brainbit

namespace Brainbit

/-- C1: For every sequence of accumulate and tryConsumeWindow operations,
every Window returned by tryConsumeWindow has exactly
windowLength = sampleRate * windowSeconds columns, is removed from the
front of the Buffer, and shares no column with any previously returned
Window; when the Buffer holds fewer than windowLength columns,
tryConsumeWindow returns not-ready and the Buffer is unchanged. -/
theorem C1_windows_exact_disjoint (sr : ℕ) (ops : List AccOp) :
    (∀ w ∈ (runOps (neededCols sr) (keep_cols sr) ops).windows,
        w.length = neededCols sr) ∧
    ((runOps (neededCols sr) (keep_cols sr) ops).windows.Pairwise
      fun a b => ∀ x ∈ a, x ∉ b) ∧
    (∀ s : AccState, s.buffer.length < neededCols sr →
        stepOp (neededCols sr) (keep_cols sr) s .tryConsume = s) ∧
    (∀ s : AccState, s.buffer.length ≠ 0 → ¬ s.buffer.length < neededCols sr →
        stepOp (neededCols sr) (keep_cols sr) s .tryConsume =
          ⟨s.buffer.drop (neededCols sr), s.nextId,
           s.windows ++ [s.buffer.take (neededCols sr)]⟩) := by
  obtain ⟨-, -, -, -, h5, h6⟩ := inv_runOps (neededCols sr) (keep_cols sr) ops
  refine ⟨h6, ?_, ?_, ?_⟩
  · exact h5.imp fun hab x hxa hxb => absurd (hab x hxa x hxb) (lt_irrefl x)
  · exact fun s hs => stepOp_tryConsume_not_ready _ _ s hs
  · exact fun s h0 hlt => stepOp_tryConsume_ready _ _ s h0 hlt

theorem C1_windows_exact_disjoint_witness :
    ((runOps (neededCols 1) (keep_cols 1)
        [.accumulate 7, .tryConsume, .accumulate 4, .tryConsume]).windows.Pairwise
      fun a b => ∀ x ∈ a, x ∉ b) ∧
    stepOp (neededCols 1) (keep_cols 1) ⟨[0, 1, 2], 3, []⟩ .tryConsume =
      ⟨[0, 1, 2], 3, []⟩ ∧
    stepOp (neededCols 1) (keep_cols 1) ⟨[0, 1, 2, 3, 4, 5], 6, []⟩ .tryConsume =
      ⟨[5], 6, [[0, 1, 2, 3, 4]]⟩ :=
  ⟨(C1_windows_exact_disjoint 1
      [.accumulate 7, .tryConsume, .accumulate 4, .tryConsume]).2.1,
   (C1_windows_exact_disjoint 1 []).2.2.1 ⟨[0, 1, 2], 3, []⟩ (by decide),
   (C1_windows_exact_disjoint 1 []).2.2.2 ⟨[0, 1, 2, 3, 4, 5], 6, []⟩
     (by decide) (by decide)⟩

/-- C2: After every accumulate call, for every sequence of input frame
sizes including frames larger than capacity, the Buffer holds at most
capacity = 4 * windowLength columns; when appending would exceed capacity,
exactly the oldest excess columns are discarded so the Buffer retains the
most recent capacity columns, and an empty frame leaves the Buffer
unchanged. -/
theorem C2_bounded_buffer (sr : ℕ) (frames : List (List ℕ)) :
    keep_cols sr = 4 * neededCols sr ∧
    (frames.foldl (fun b f => append_buffer b f (keep_cols sr)) []).length ≤
      keep_cols sr ∧
    (∀ buf new : List ℕ, new ≠ [] → keep_cols sr < (buf ++ new).length →
        append_buffer buf new (keep_cols sr) =
          (buf ++ new).drop ((buf ++ new).length - keep_cols sr)) ∧
    (∀ buf : List ℕ, append_buffer buf [] (keep_cols sr) = buf) := by
  refine ⟨(Nat.mul_comm _ _), ?_, ?_, ?_⟩
  · exact foldl_append_buffer_length_le frames (Nat.zero_le _)
  · exact fun buf new hne hover => append_buffer_overflow hne hover
  · exact fun buf => append_buffer_nil buf _

theorem C2_bounded_buffer_witness :
    (([[0, 1, 2], [3, 4], [], [5, 6, 7, 8, 9, 10, 11, 12, 13, 14, 15, 16, 17, 18,
        19, 20, 21, 22, 23, 24, 25]].foldl
        (fun b f => append_buffer b f (keep_cols 1)) []).length ≤ keep_cols 1) ∧
    append_buffer [0, 1] [2, 3, 4, 5, 6, 7, 8, 9, 10, 11, 12, 13, 14, 15, 16, 17,
        18, 19, 20, 21, 22] (keep_cols 1) =
      (([0, 1] ++ [2, 3, 4, 5, 6, 7, 8, 9, 10, 11, 12, 13, 14, 15, 16, 17, 18, 19,
        20, 21, 22]).drop
        (([0, 1] ++ [2, 3, 4, 5, 6, 7, 8, 9, 10, 11, 12, 13, 14, 15, 16, 17, 18,
          19, 20, 21, 22] : List ℕ).length - keep_cols 1)) ∧
    append_buffer [0, 1, 2] [] (keep_cols 1) = [0, 1, 2] :=
  ⟨(C2_bounded_buffer 1 _).2.1,
   (C2_bounded_buffer 1 []).2.2.1 _ _ (by decide) (by decide),
   (C2_bounded_buffer 1 []).2.2.2 [0, 1, 2]⟩

/-- Source line 147: the three veto modes accepted by --veto-mode. -/
inductive VetoMode : Type
  | off
  | lenient
  | strict

/-- Source lines 340-348: the tentative veto decision computed from the two
quality z-scores and the base threshold veto_thr. -/
def tentativeVeto (mode : VetoMode) (z_gamma z_total veto_thr : ℚ) : Bool :=
  match mode with
  | .strict => decide (z_gamma > veto_thr) || decide (z_total > veto_thr)
  | .lenient =>
      decide (z_gamma > veto_thr + 1) ||
        (decide (z_total > veto_thr + 1) && decide (z_gamma > veto_thr - 1/2))
  | .off => false

/-- Source lines 350-364: apply the consecutive-veto cap to the tentative
decision, then update the counter: a vetoed window increments it, an
accepted window resets it to 0.  Returns (vetoed, new counter). -/
def vetoStep (max_consec_veto : ℕ) (tentative : Bool) (consec_veto : ℕ) :
    Bool × ℕ :=
  let veto : Bool :=
    if tentative ∧ max_consec_veto ≤ consec_veto then false else tentative
  if veto then (true, consec_veto + 1) else (false, 0)

/-- The counter after a whole sequence of tentative decisions, starting
from consec_veto = 0 (source line 299). -/
def vetoRun (max_consec_veto : ℕ) (tentatives : List Bool) : ℕ :=
  tentatives.foldl (fun c t => (vetoStep max_consec_veto t c).2) 0

theorem vetoStep_counter_le {m c : ℕ} (t : Bool) (h : c ≤ m) :
    (vetoStep m t c).2 ≤ m := by
  unfold vetoStep
  dsimp only
  by_cases hA : t = true ∧ m ≤ c
  · simp [hA]
  · rw [if_neg hA]
    cases t with
    | false => simp
    | true =>
        have hc : ¬ m ≤ c := fun hmc => hA ⟨rfl, hmc⟩
        simp only [if_true, if_pos rfl]
        omega

theorem vetoRun_le (m : ℕ) (ts : List Bool) : vetoRun m ts ≤ m := by
  unfold vetoRun
  have key : ∀ c, c ≤ m → ts.foldl (fun c t => (vetoStep m t c).2) c ≤ m := by
    induction ts with
    | nil => exact fun c hc => hc
    | cons t ts ih =>
        intro c hc
        rw [List.foldl_cons]
        exact ih _ (vetoStep_counter_le t hc)
  exact key 0 (Nat.zero_le m)

/-- C4: force-accept on a tentative veto at the cap resets the counter to
0; every accepted window resets it to 0; every vetoed window increments it
by exactly 1; consequently the counter never exceeds the cap. -/
theorem C4_veto_hysteresis (m : ℕ) :
    (∀ c : ℕ, m ≤ c → vetoStep m true c = (false, 0)) ∧
    (∀ (t : Bool) (c : ℕ), (vetoStep m t c).1 = false → (vetoStep m t c).2 = 0) ∧
    (∀ (t : Bool) (c : ℕ), (vetoStep m t c).1 = true → (vetoStep m t c).2 = c + 1) ∧
    (∀ ts : List Bool, vetoRun m ts ≤ m) := by
  refine ⟨?_, ?_, ?_, vetoRun_le m⟩
  · intro c hc
    simp [vetoStep, hc]
  · intro t c
    unfold vetoStep
    dsimp only
    split
    · simp
    · cases t <;> simp
  · intro t c
    unfold vetoStep
    dsimp only
    split
    · simp
    · cases t <;> simp

theorem C4_veto_hysteresis_witness :
    vetoStep 2 true 2 = (false, 0) ∧
    (vetoStep 2 true 0).2 = 0 + 1 ∧
    (vetoStep 2 false 1).2 = 0 ∧
    vetoRun 2 [true, true, true, true, true] ≤ 2 :=
  ⟨(C4_veto_hysteresis 2).1 2 (by decide),
   (C4_veto_hysteresis 2).2.2.1 true 0 (by decide),
   (C4_veto_hysteresis 2).2.1 false 1 (by decide),
   (C4_veto_hysteresis 2).2.2.2 [true, true, true, true, true]⟩

/-- C5: mode off never vetoes; strict vetoes iff zGamma > T or zTotal > T;
lenient vetoes iff zGamma > T+1 or (zTotal > T+1 and zGamma > T-0.5). -/
theorem C5_tentative_decision (z_gamma z_total veto_thr : ℚ) :
    tentativeVeto .off z_gamma z_total veto_thr = false ∧
    (tentativeVeto .strict z_gamma z_total veto_thr = true ↔
      z_gamma > veto_thr ∨ z_total > veto_thr) ∧
    (tentativeVeto .lenient z_gamma z_total veto_thr = true ↔
      z_gamma > veto_thr + 1 ∨
        (z_total > veto_thr + 1 ∧ z_gamma > veto_thr - 1/2)) := by
  refine ⟨rfl, ?_, ?_⟩ <;> simp [tentativeVeto]

/-- np.mean of a list of samples. -/
def listMean (xs : List ℚ) : ℚ := xs.sum / (xs.length : ℚ)

/-- The Bessel-corrected sample variance, the square of np.std(xs, ddof=1). -/
def sampleVar (xs : List ℚ) : ℚ :=
  ((xs.map fun x => (x - listMean xs) ^ 2).sum) / ((xs.length : ℚ) - 1)

/-- EPS as a real number, for the spread values that involve a square root. -/
noncomputable def EPSR : ℝ := (EPS : ℚ)

/-- Source lines 70-73: mean_std returns the mean and max(std, EPS), where
std is np.std(xs, ddof=1) (the real square root of the Bessel-corrected
variance) when there is more than one sample, else EPS. -/
noncomputable def mean_std (xs : List ℚ) : ℚ × ℝ :=
  (listMean xs,
   max (if 1 < xs.length then Real.sqrt (sampleVar xs) else EPSR) EPSR)

/-- np.median: sort the samples, take the middle one (odd length) or the
average of the two middle ones (even length). -/
def median (xs : List ℚ) : ℚ :=
  let s := xs.mergeSort fun a b => decide (a ≤ b)
  if xs.length % 2 = 1 then s.getD (xs.length / 2) 0
  else (s.getD (xs.length / 2 - 1) 0 + s.getD (xs.length / 2) 0) / 2

/-- Source lines 75-80: robust centre/spread: the median, and the
MAD-derived spread 1.4826 * median(|x - med|), floored at EPS. -/
def robust_mean_std (xs : List ℚ) : ℚ × ℚ :=
  (median xs, max (14826/10000 * median (xs.map fun x => |x - median xs|)) EPS)

/-- The six baseline numbers of the baseline_ready message (source lines
288-294); the spreads are reals because the standard branch takes a square
root. -/
structure BaselineStats : Type where
  mu_raw : ℚ
  sigma_raw : ℝ
  mu_gamma : ℚ
  sigma_gamma : ℝ
  mu_total : ℚ
  sigma_total : ℝ

/-- Which statistics branch runs at the end of calibration. -/
inductive StatsChoice : Type
  | standard
  | robust
  | insufficient
deriving DecidableEq

/-- The branch structure of source lines 272-282: standard statistics when
len(raws) >= max(3, target // 2), else robust statistics when
len(raws) >= 3, else the fatal RuntimeError. -/
def statsChoice (nAccepted target : ℕ) : StatsChoice :=
  if max 3 (target / 2) ≤ nAccepted then .standard
  else if 3 ≤ nAccepted then .robust
  else .insufficient

/-- Source lines 272-282: compute the baseline statistics from the accepted
feature samples; the error value models the RuntimeError raised when fewer
than three clean windows were accepted. -/
noncomputable def baselineStats (target : ℕ) (raws gammas totals : List ℚ) :
    Except Unit BaselineStats :=
  match statsChoice raws.length target with
  | .standard =>
      .ok ⟨(mean_std raws).1, (mean_std raws).2,
           (mean_std gammas).1, (mean_std gammas).2,
           (mean_std totals).1, (mean_std totals).2⟩
  | .robust =>
      .ok ⟨(robust_mean_std raws).1, ((robust_mean_std raws).2 : ℚ),
           (robust_mean_std gammas).1, ((robust_mean_std gammas).2 : ℚ),
           (robust_mean_std totals).1, ((robust_mean_std totals).2 : ℚ)⟩
  | .insufficient => .error ()

theorem statsChoice_standard {n target : ℕ} (h : max 3 (target / 2) ≤ n) :
    statsChoice n target = .standard := by
  unfold statsChoice
  rw [if_pos h]

theorem statsChoice_robust {n target : ℕ} (h3 : 3 ≤ n) (h : n < target / 2) :
    statsChoice n target = .robust := by
  unfold statsChoice
  rw [if_neg (by rw [Nat.max_le]; omega), if_pos h3]

theorem statsChoice_insufficient {n target : ℕ} (h : n < 3) :
    statsChoice n target = .insufficient := by
  unfold statsChoice
  rw [if_neg (by rw [Nat.max_le]; omega), if_neg (by omega)]

/-- C3: at the end of calibration, if len(accepted) >= max(3, target/2)
each feature gets mean and Bessel-corrected standard deviation (EPS when a
single sample), floored at EPS; if 3 <= len(accepted) < target/2 each gets
median and 1.4826 * median(|x - median|), floored at EPS; with fewer than
3 accepted samples calibration fails the run. -/
theorem C3_stats_selection (target : ℕ) (raws gammas totals : List ℚ) :
    (max 3 (target / 2) ≤ raws.length →
      baselineStats target raws gammas totals =
        .ok ⟨listMean raws,
             max (if 1 < raws.length then Real.sqrt (sampleVar raws) else EPSR)
               EPSR,
             listMean gammas,
             max (if 1 < gammas.length then Real.sqrt (sampleVar gammas) else EPSR)
               EPSR,
             listMean totals,
             max (if 1 < totals.length then Real.sqrt (sampleVar totals) else EPSR)
               EPSR⟩) ∧
    (3 ≤ raws.length → raws.length < target / 2 →
      baselineStats target raws gammas totals =
        .ok ⟨median raws,
             ((max (14826/10000 * median (raws.map fun x => |x - median raws|))
                EPS : ℚ) : ℝ),
             median gammas,
             ((max (14826/10000 * median (gammas.map fun x => |x - median gammas|))
                EPS : ℚ) : ℝ),
             median totals,
             ((max (14826/10000 * median (totals.map fun x => |x - median totals|))
                EPS : ℚ) : ℝ)⟩) ∧
    (raws.length < 3 →
      baselineStats target raws gammas totals = .error ()) := by
  refine ⟨?_, ?_, ?_⟩
  · intro h
    unfold baselineStats
    rw [statsChoice_standard h]
    rfl
  · intro h3 h
    unfold baselineStats
    rw [statsChoice_robust h3 h]
    rfl
  · intro h
    unfold baselineStats
    rw [statsChoice_insufficient h]

theorem C3_stats_selection_witness :
    (max 3 (20 / 2) ≤ ([1, 2, 3, 4, 5, 6, 7, 8, 9, 10] : List ℚ).length ∧
      baselineStats 20 [1, 2, 3, 4, 5, 6, 7, 8, 9, 10] [1, 2] [3, 4] =
        .ok ⟨listMean [1, 2, 3, 4, 5, 6, 7, 8, 9, 10],
             max (if 1 < ([1, 2, 3, 4, 5, 6, 7, 8, 9, 10] : List ℚ).length then
                Real.sqrt (sampleVar [1, 2, 3, 4, 5, 6, 7, 8, 9, 10]) else EPSR)
               EPSR,
             listMean [1, 2],
             max (if 1 < ([1, 2] : List ℚ).length then
                Real.sqrt (sampleVar [1, 2]) else EPSR) EPSR,
             listMean [3, 4],
             max (if 1 < ([3, 4] : List ℚ).length then
                Real.sqrt (sampleVar [3, 4]) else EPSR) EPSR⟩) ∧
    (baselineStats 20 [5, 6, 7] [1, 2] [3, 4] =
        .ok ⟨median [5, 6, 7],
             ((max (14826/10000 *
                  median (([5, 6, 7] : List ℚ).map fun x => |x - median [5, 6, 7]|))
                EPS : ℚ) : ℝ),
             median [1, 2],
             ((max (14826/10000 *
                  median (([1, 2] : List ℚ).map fun x => |x - median [1, 2]|))
                EPS : ℚ) : ℝ),
             median [3, 4],
             ((max (14826/10000 *
                  median (([3, 4] : List ℚ).map fun x => |x - median [3, 4]|))
                EPS : ℚ) : ℝ)⟩) ∧
    baselineStats 20 [5] [1, 2] [3, 4] = .error () :=
  ⟨⟨by decide, (C3_stats_selection 20 [1, 2, 3, 4, 5, 6, 7, 8, 9, 10] [1, 2]
      [3, 4]).1 (by decide)⟩,
   (C3_stats_selection 20 [5, 6, 7] [1, 2] [3, 4]).2.1 (by decide) (by decide),
   (C3_stats_selection 20 [5] [1, 2] [3, 4]).2.2 (by decide)⟩

/-- Source line 211: baseline_windows = max(1, BASELINE_SEC // WINDOW_SEC). -/
def baseline_windows : ℕ := max 1 (BASELINE_SEC / WINDOW_SEC)

/-- Source line 212: baseline_timebox = baseline_windows * 8. -/
def baseline_timebox : ℕ := baseline_windows * 8

/-- C9: with the built-in constants (windowSeconds = 5, baselineSeconds =
30, hence targetWindows = 6 and threshold max(3, 6 // 2) = 3), the robust
median/MAD branch is unreachable: any accepted count of at least 3 selects
the standard statistics and any smaller count fails the run fatally. -/
theorem C9_robust_branch_unreachable :
    baseline_windows = 6 ∧
    (∀ n : ℕ, statsChoice n baseline_windows ≠ .robust) ∧
    (∀ n : ℕ, 3 ≤ n → statsChoice n baseline_windows = .standard) ∧
    (∀ n : ℕ, n < 3 → statsChoice n baseline_windows = .insufficient) := by
  have hbw : baseline_windows = 6 := by decide
  refine ⟨hbw, ?_, ?_, ?_⟩
  · intro n
    rw [hbw]
    by_cases h : 3 ≤ n
    · rw [statsChoice_standard (by simpa using h)]
      exact fun hc => StatsChoice.noConfusion hc
    · rw [statsChoice_insufficient (by omega)]
      exact fun hc => StatsChoice.noConfusion hc
  · intro n h
    rw [hbw, statsChoice_standard (by simpa using h)]
  · intro n h
    rw [hbw, statsChoice_insufficient h]

theorem C9_robust_branch_unreachable_witness :
    statsChoice 3 baseline_windows = .standard ∧
    statsChoice 2 baseline_windows = .insufficient ∧
    statsChoice 4 baseline_windows ≠ .robust :=
  ⟨(C9_robust_branch_unreachable).2.2.1 3 (by decide),
   (C9_robust_branch_unreachable).2.2.2 2 (by decide),
   (C9_robust_branch_unreachable).2.1 4⟩

/-- Source line 218: the calibration loop guard.  The body runs only while
the target is unmet, the attempt budget remains, and no stop was
requested. -/
def calibLoopContinues (accepted taken target timebox : ℕ)
    (stopSet : Bool) : Bool :=
  decide (accepted < target) && decide (taken < timebox) && !stopSet

/-- Source lines 268-282: after the calibration loop, a pending stop
request only prints a message; the statistics selection, including the
fatal insufficient-windows error, is evaluated regardless of why the loop
exited, so the stop flag does not influence the result. -/
noncomputable def baselineFinish (stopRequested : Bool) (target : ℕ)
    (raws gammas totals : List ℚ) : Except Unit BaselineStats :=
  baselineStats target raws gammas totals

/-- C10: if the cancellation signal is set during calibration while fewer
than 3 windows have been accepted, the loop exits, yet the
insufficient-windows check still runs and the program raises the fatal
calibration-failure error even though shutdown was requested. -/
theorem C10_fatal_error_despite_shutdown (stopRequested : Bool) (target : ℕ)
    (raws gammas totals : List ℚ) :
    (∀ accepted taken timebox : ℕ,
        calibLoopContinues accepted taken target timebox true = false) ∧
    (raws.length < 3 →
        baselineFinish stopRequested target raws gammas totals = .error ()) := by
  constructor
  · intro accepted taken timebox
    simp [calibLoopContinues]
  · intro h
    unfold baselineFinish baselineStats
    rw [statsChoice_insufficient h]

theorem C10_fatal_error_despite_shutdown_witness :
    calibLoopContinues 2 7 6 48 true = false ∧
    baselineFinish true 6 [1, 2] [1, 2] [1, 2] = .error () :=
  ⟨(C10_fatal_error_despite_shutdown true 6 [1, 2] [1, 2] [1, 2]).1 2 7 48,
   (C10_fatal_error_despite_shutdown true 6 [1, 2] [1, 2] [1, 2]).2 (by decide)⟩

/-- A z-score against a baseline pair, floored spread: source lines 337-338
and 373. -/
def zOf (mu sigma x : ℚ) : ℚ := (x - mu) / max sigma EPS

/-- The five band powers returned by get_bands (source lines 65-68, 249,
333), modelled as rationals. -/
structure Bands : Type where
  delta : ℚ
  theta : ℚ
  alpha : ℚ
  beta : ℚ
  gamma : ℚ
deriving DecidableEq

/-- sum(bands): source lines 251 and 334. -/
def Bands.total (b : Bands) : ℚ := b.delta + b.theta + b.alpha + b.beta + b.gamma

/-- any(b <= 0 for b in bands): source lines 245 and 329. -/
def Bands.anyNonpos (b : Bands) : Bool :=
  decide (b.delta ≤ 0) || decide (b.theta ≤ 0) || decide (b.alpha ≤ 0) ||
    decide (b.beta ≤ 0) || decide (b.gamma ≤ 0)

/-- What the phase-2 loop observes about one consumed window after the
external cleaning and band-decomposition steps.  The Boolean fields model
the float finiteness checks performed on externally produced data:
cleanFinite is finite_all on the (possibly cleaned) window data (source
lines 319 and 324), bandsFinite is finite_all(bands) (line 329), and
rawFinite is math.isfinite(raw) (line 369, where the float division can
overflow to infinity even for positive finite band powers). -/
structure WindowObs : Type where
  cleanFinite : Bool
  bands : Bands
  bandsFinite : Bool
  rawFinite : Bool
deriving DecidableEq

/-- The veto configuration from the command line: source lines 166-168. -/
structure VetoConfig : Type where
  mode : VetoMode
  veto_thr : ℚ
  max_consec_veto : ℕ

/-- The baseline numbers as phase 2 consumes them (plain values; source
lines 273-280 bind them once, phase 2 only reads them). -/
structure Phase2Baseline : Type where
  mu_raw : ℚ
  sigma_raw : ℚ
  mu_gamma : ℚ
  sigma_gamma : ℚ
  mu_total : ℚ
  sigma_total : ℚ

/-- How the phase-2 loop disposes of one consumed window. -/
inductive WindowOutcome : Type
  | invalid
  | vetoed (z_gamma z_total : ℚ)
  | accepted (raw : ℚ)
deriving DecidableEq

/-- Source lines 316-371: the phase-2 handling of one consumed window up to
the scoring step.  The cleaned data and the band powers are validated
first; then the veto decision runs and updates consec_veto; only on an
accepting decision is raw = beta / (alpha + theta + EPS) computed and its
finiteness checked, after the counter was already reset.  Returns the
outcome together with the updated consec_veto counter. -/
def processWindow (cfg : VetoConfig) (bl : Phase2Baseline) (obs : WindowObs)
    (consec_veto : ℕ) : WindowOutcome × ℕ :=
  if !obs.cleanFinite then (.invalid, consec_veto)
  else if !obs.bandsFinite || obs.bands.anyNonpos then (.invalid, consec_veto)
  else
    let z_gamma := zOf bl.mu_gamma bl.sigma_gamma obs.bands.gamma
    let z_total := zOf bl.mu_total bl.sigma_total obs.bands.total
    let tentative := tentativeVeto cfg.mode z_gamma z_total cfg.veto_thr
    match vetoStep cfg.max_consec_veto tentative consec_veto with
    | (true, c) => (.vetoed z_gamma z_total, c)
    | (false, c) =>
        let raw := obs.bands.beta / (obs.bands.alpha + obs.bands.theta + EPS)
        if !obs.rawFinite then (.invalid, c)
        else (.accepted raw, c)

theorem vetoStep_cases (m : ℕ) (t : Bool) (c : ℕ) :
    vetoStep m t c = (true, c + 1) ∨ vetoStep m t c = (false, 0) := by
  unfold vetoStep
  dsimp only
  split
  · exact Or.inr (by simp)
  · cases t
    · exact Or.inr (by simp)
    · exact Or.inl (by simp)

/-- C6 is refuted on the code: a window that passes cleaning and band
validation, is accepted by the veto policy, and is then discarded because
its rawRatio is non-finite has already had consec_veto reset from 1 to 0,
so the counter does not stay unchanged on that WindowInvalid discard. -/
theorem C6_counterexample :
    processWindow ⟨.lenient, 3, 2⟩ ⟨0, 1, 0, 1, 0, 1⟩
        ⟨true, ⟨1, 1, 1, 1, 1⟩, true, false⟩ 1 = (.invalid, 0) ∧
    (0 : ℕ) ≠ 1 := by
  refine ⟨?_, by decide⟩
  have hzg : zOf 0 1 (1 : ℚ) = 1 := by
    unfold zOf
    rw [max_eq_left (by norm_num [EPS])]
    norm_num
  have hzt : zOf 0 1 (Bands.total ⟨1, 1, 1, 1, 1⟩) = 5 := by
    unfold zOf Bands.total
    rw [max_eq_left (by norm_num [EPS])]
    norm_num
  have ht : tentativeVeto .lenient 1 5 3 = false := by
    unfold tentativeVeto
    rw [decide_eq_false (by norm_num : ¬ (1 : ℚ) > 3 + 1),
      decide_eq_false (by norm_num : ¬ (1 : ℚ) > 3 - 1/2)]
    simp
  have hnp : Bands.anyNonpos ⟨1, 1, 1, 1, 1⟩ = false := by
    unfold Bands.anyNonpos
    dsimp only
    rw [decide_eq_false (by norm_num : ¬ (1 : ℚ) ≤ 0)]
    simp
  have hv : vetoStep 2 false 1 = (false, 0) := by
    unfold vetoStep
    simp
  simp [processWindow, hnp, hzg, hzt, ht, hv]

/-- C6 (amended): in the phase-2 loop the cleaning and band-power parts of
the discard rule run before the veto decision is consulted, and a window
discarded by them leaves consec_veto unchanged; the rawRatio finiteness
part runs only after the veto decision, so a window discarded for a
non-finite rawRatio has its counter already reset to 0. -/
theorem C6_validation_order (cfg : VetoConfig) (bl : Phase2Baseline)
    (obs : WindowObs) (c : ℕ) :
    (obs.cleanFinite = false → processWindow cfg bl obs c = (.invalid, c)) ∧
    (obs.bandsFinite = false ∨ obs.bands.anyNonpos = true →
        processWindow cfg bl obs c = (.invalid, c)) ∧
    (obs.cleanFinite = true → obs.bandsFinite = true →
      obs.bands.anyNonpos = false → obs.rawFinite = false →
      (vetoStep cfg.max_consec_veto
          (tentativeVeto cfg.mode (zOf bl.mu_gamma bl.sigma_gamma obs.bands.gamma)
            (zOf bl.mu_total bl.sigma_total obs.bands.total) cfg.veto_thr)
          c).1 = false →
      processWindow cfg bl obs c = (.invalid, 0)) := by
  refine ⟨?_, ?_, ?_⟩
  · intro h
    simp [processWindow, h]
  · intro h
    cases hcl : obs.cleanFinite with
    | false => simp [processWindow, hcl]
    | true => rcases h with h | h <;> simp [processWindow, hcl, h]
  · intro hcl hbf hnp hrf hv
    rcases vetoStep_cases cfg.max_consec_veto
        (tentativeVeto cfg.mode (zOf bl.mu_gamma bl.sigma_gamma obs.bands.gamma)
          (zOf bl.mu_total bl.sigma_total obs.bands.total) cfg.veto_thr) c with
      hs | hs
    · rw [hs] at hv
      simp at hv
    · simp [processWindow, hcl, hbf, hnp, hs, hrf]

theorem C6_validation_order_witness :
    processWindow ⟨.strict, 3, 2⟩ ⟨0, 1, 0, 1, 0, 1⟩
        ⟨false, ⟨1, 1, 1, 1, 1⟩, true, true⟩ 5 = (.invalid, 5) ∧
    processWindow ⟨.strict, 3, 2⟩ ⟨0, 1, 0, 1, 0, 1⟩
        ⟨true, ⟨1, 1, 1, 0, 1⟩, true, true⟩ 5 = (.invalid, 5) ∧
    processWindow ⟨.off, 3, 2⟩ ⟨0, 1, 0, 1, 0, 1⟩
        ⟨true, ⟨1, 1, 1, 1, 1⟩, true, false⟩ 1 = (.invalid, 0) :=
  ⟨(C6_validation_order ⟨.strict, 3, 2⟩ ⟨0, 1, 0, 1, 0, 1⟩
      ⟨false, ⟨1, 1, 1, 1, 1⟩, true, true⟩ 5).1 rfl,
   (C6_validation_order ⟨.strict, 3, 2⟩ ⟨0, 1, 0, 1, 0, 1⟩
      ⟨true, ⟨1, 1, 1, 0, 1⟩, true, true⟩ 5).2.1 (Or.inr (by
        unfold Bands.anyNonpos
        dsimp only
        rw [decide_eq_true (by norm_num : (0 : ℚ) ≤ 0)]
        simp)),
   (C6_validation_order ⟨.off, 3, 2⟩ ⟨0, 1, 0, 1, 0, 1⟩
      ⟨true, ⟨1, 1, 1, 1, 1⟩, true, false⟩ 1).2.2 rfl rfl (by
        unfold Bands.anyNonpos
        dsimp only
        rw [decide_eq_false (by norm_num : ¬ (1 : ℚ) ≤ 0)]
        simp) rfl (by
        show (vetoStep 2 (tentativeVeto .off _ _ _) 1).1 = false
        unfold tentativeVeto vetoStep
        simp)⟩

/-- Source lines 40-41: sigmoid(x) = 1 / (1 + exp(-x)). -/
noncomputable def sigmoid (x : ℝ) : ℝ := 1 / (1 + Real.exp (-x))

/-- Round-half-to-even on the reals: the semantics of Python's round on
floats, applied by int(round(..)) at source line 375. -/
noncomputable def pyRound (x : ℝ) : ℤ :=
  if Int.fract x = 1/2 then (if ⌊x⌋ % 2 = 0 then ⌊x⌋ else ⌊x⌋ + 1)
  else round x

/-- Source lines 373-376: z from the baseline, the logistic score01 with
gain 1.2, rounding to an integer and clamping to [0, 100]. -/
noncomputable def score (mu_raw sigma_raw raw : ℚ) : ℤ :=
  max 0 (min 100
    (pyRound (100 * sigmoid ((LOGISTIC_GAIN * zOf mu_raw sigma_raw raw : ℚ) : ℝ))))

/-- Source lines 378-380: the label from z and the HIGH_Z / LOW_Z cut-offs. -/
def labelOf (z : ℚ) : String :=
  if z ≥ HIGH_Z then "High focus"
  else if z ≤ LOW_Z then "Low focus"
  else "Neutral"

theorem sigmoid_mono {x y : ℝ} (h : x ≤ y) : sigmoid x ≤ sigmoid y := by
  unfold sigmoid
  have hy : (0 : ℝ) < 1 + Real.exp (-y) := by positivity
  apply one_div_le_one_div_of_le hy
  have hexp : Real.exp (-y) ≤ Real.exp (-x) := Real.exp_le_exp.mpr (by linarith)
  linarith

theorem pyRound_eq_round {x : ℝ} (h : Int.fract x ≠ 1/2) : pyRound x = round x := by
  unfold pyRound
  rw [if_neg h]

theorem eq_floor_add_half {x : ℝ} (h : Int.fract x = 1/2) :
    x = (⌊x⌋ : ℝ) + 1/2 := by
  have h0 := Int.floor_add_fract x
  rw [h] at h0
  linarith

theorem round_mono_le {x y : ℝ} (h : x ≤ y) : round x ≤ round y := by
  rw [round_eq, round_eq]
  exact Int.floor_le_floor (by linarith)

theorem floor_le_pyRound (x : ℝ) : ⌊x⌋ ≤ pyRound x := by
  unfold pyRound
  split
  · split
    · exact le_refl _
    · omega
  · rw [round_eq]
    exact Int.floor_le_floor (by linarith)

theorem pyRound_le_round (x : ℝ) : pyRound x ≤ round x := by
  unfold pyRound
  split
  · next hf =>
      have hx := eq_floor_add_half hf
      have hr : round x = ⌊x⌋ + 1 := by
        rw [round_eq]
        have hone : x + 1/2 = ((⌊x⌋ + 1 : ℤ) : ℝ) := by
          push_cast
          linarith
        rw [hone, Int.floor_intCast]
      rw [hr]
      split <;> omega
  · exact le_refl _

theorem pyRound_mono {x y : ℝ} (h : x ≤ y) : pyRound x ≤ pyRound y := by
  rcases eq_or_lt_of_le h with rfl | hlt
  · exact le_refl _
  by_cases hfy : Int.fract y = 1/2
  · have hy := eq_floor_add_half hfy
    have h2 : round x ≤ ⌊y⌋ := by
      rw [round_eq]
      have hstep : ⌊x + 1/2⌋ < ⌊y⌋ + 1 := by
        apply Int.floor_lt.mpr
        push_cast
        linarith
      omega
    have h3 := floor_le_pyRound y
    have h1 := pyRound_le_round x
    omega
  · rw [pyRound_eq_round hfy]
    exact le_trans (pyRound_le_round x) (round_mono_le h)

theorem pyRound_eq_of_bounds {x : ℝ} {n : ℤ} (h1 : (n : ℝ) - 1/2 < x)
    (h2 : x < (n : ℝ) + 1/2) : pyRound x = n := by
  have hr : round x = n := by
    rw [round_eq, Int.floor_eq_iff]
    constructor
    · push_cast
      linarith
    · push_cast
      linarith
  have hfx : Int.fract x ≠ 1/2 := by
    intro hf
    have hx := eq_floor_add_half hf
    have ha : ((n - 1 : ℤ) : ℝ) < (⌊x⌋ : ℝ) := by push_cast; linarith
    have hb : (⌊x⌋ : ℝ) < (n : ℝ) := by linarith
    have ha' : n - 1 < ⌊x⌋ := by exact_mod_cast ha
    have hb' : ⌊x⌋ < n := by exact_mod_cast hb
    omega
  rw [pyRound_eq_round hfx, hr]

theorem max_sigma_pos (sigma : ℚ) : (0 : ℚ) < max sigma EPS :=
  lt_of_lt_of_le (by norm_num [EPS]) (le_max_right _ _)

theorem zOf_mono {mu sigma r1 r2 : ℚ} (h : r1 ≤ r2) :
    zOf mu sigma r1 ≤ zOf mu sigma r2 := by
  unfold zOf
  rw [div_le_div_right (max_sigma_pos sigma)]
  linarith

/-- C7: for a fixed baseline the score is monotonically non-decreasing in
rawRatio, and for every input it is an integer in [0, 100]. -/
theorem C7_score_monotone_bounded (mu_raw sigma_raw : ℚ) :
    (∀ r1 r2 : ℚ, r1 ≤ r2 →
        score mu_raw sigma_raw r1 ≤ score mu_raw sigma_raw r2) ∧
    (∀ raw : ℚ, 0 ≤ score mu_raw sigma_raw raw ∧
        score mu_raw sigma_raw raw ≤ 100) := by
  constructor
  · intro r1 r2 h
    unfold score
    have hz : (LOGISTIC_GAIN * zOf mu_raw sigma_raw r1 : ℚ) ≤
        LOGISTIC_GAIN * zOf mu_raw sigma_raw r2 := by
      have hz0 : zOf mu_raw sigma_raw r1 ≤ zOf mu_raw sigma_raw r2 := zOf_mono h
      have hg : (0 : ℚ) ≤ LOGISTIC_GAIN := by norm_num [LOGISTIC_GAIN]
      exact mul_le_mul_of_nonneg_left hz0 hg
    have hs : sigmoid ((LOGISTIC_GAIN * zOf mu_raw sigma_raw r1 : ℚ) : ℝ) ≤
        sigmoid ((LOGISTIC_GAIN * zOf mu_raw sigma_raw r2 : ℚ) : ℝ) :=
      sigmoid_mono (by exact_mod_cast hz)
    have hp : pyRound (100 * sigmoid ((LOGISTIC_GAIN * zOf mu_raw sigma_raw r1 : ℚ) : ℝ)) ≤
        pyRound (100 * sigmoid ((LOGISTIC_GAIN * zOf mu_raw sigma_raw r2 : ℚ) : ℝ)) :=
      pyRound_mono (by linarith)
    exact max_le_max (le_refl 0) (min_le_min (le_refl 100) hp)
  · intro raw
    unfold score
    constructor
    · exact le_max_left 0 _
    · exact max_le (by norm_num) (min_le_left 100 _)

theorem C7_score_monotone_bounded_witness :
    (1 : ℚ) ≤ 2 ∧ score 0 1 1 ≤ score 0 1 2 :=
  ⟨by norm_num, (C7_score_monotone_bounded 0 1).1 1 2 (by norm_num)⟩

theorem exp_three_fifths_bounds :
    (1809 : ℝ)/1000 ≤ Real.exp (3/5) ∧ Real.exp (3/5) ≤ (1823 : ℝ)/1000 := by
  have hx : |(3/5 : ℝ)| ≤ 1 := by
    rw [abs_of_nonneg (by norm_num : (0:ℝ) ≤ 3/5)]
    norm_num
  have h := @Real.exp_bound (3/5) hx 4 (by norm_num)
  norm_num [Finset.sum_range_succ, Nat.factorial, abs_of_nonneg] at h
  have h' := abs_le.mp h
  constructor <;> linarith [h'.1, h'.2]

theorem exp_six_fifths_bounds :
    (3272481 : ℝ)/1000000 ≤ Real.exp (6/5) ∧
      Real.exp (6/5) ≤ (3323329 : ℝ)/1000000 := by
  have h := exp_three_fifths_bounds
  have hpos : (0 : ℝ) < Real.exp (3/5) := Real.exp_pos _
  have hsq : Real.exp (6/5) = Real.exp (3/5) * Real.exp (3/5) := by
    rw [← Real.exp_add]
    norm_num
  rw [hsq]
  constructor
  · have hm := mul_le_mul h.1 h.1 (by norm_num) (le_of_lt hpos)
    linarith [hm]
  · have hm := mul_le_mul h.2 h.2 (le_of_lt hpos) (by norm_num)
    linarith [hm]

theorem pyRound_sigmoid_six_fifths : pyRound (100 * sigmoid (6/5 : ℝ)) = 77 := by
  have hE := exp_six_fifths_bounds
  have hEpos : (0 : ℝ) < Real.exp (6/5) := Real.exp_pos _
  have hxv : Real.exp (-(6/5 : ℝ)) = (Real.exp (6/5))⁻¹ := Real.exp_neg _
  have hxu : Real.exp (-(6/5 : ℝ)) ≤ 305579/1000000 := by
    rw [hxv, inv_eq_one_div]
    calc (1 : ℝ)/Real.exp (6/5) ≤ 1/(3272481/1000000 : ℝ) :=
          one_div_le_one_div_of_le (by norm_num) hE.1
      _ ≤ 305579/1000000 := by norm_num
  have hxl : (300902/1000000 : ℝ) ≤ Real.exp (-(6/5 : ℝ)) := by
    rw [hxv, inv_eq_one_div]
    calc (300902/1000000 : ℝ) ≤ 1/(3323329/1000000 : ℝ) := by norm_num
      _ ≤ 1/Real.exp (6/5) := one_div_le_one_div_of_le hEpos hE.2
  have hxpos : (0 : ℝ) < 1 + Real.exp (-(6/5 : ℝ)) := by positivity
  have hs : (100 : ℝ) * sigmoid (6/5 : ℝ) =
      100 / (1 + Real.exp (-(6/5 : ℝ))) := by
    unfold sigmoid
    ring
  apply pyRound_eq_of_bounds
  · rw [hs, lt_div_iff hxpos]
    push_cast
    linarith [hxu]
  · rw [hs, div_lt_iff hxpos]
    push_cast
    linarith [hxl]

/-- C8: for every accepted window and fixed baseline the code computes
z = (rawRatio - mu)/max(sigma, EPS), score = round(100 / (1 + e^(-1.2 z)))
clamped to [0, 100], and the label from the z cut-offs 1.0 and -1.0; on the
worked example rawRatio = 1.5, mu = 1.0, sigma = 0.5 this gives z = 1,
score = 77, label High focus. -/
theorem C8_score_pipeline :
    (∀ mu sigma raw : ℚ, score mu sigma raw =
      max 0 (min 100 (pyRound (100 *
        (1 / (1 + Real.exp (-((LOGISTIC_GAIN * zOf mu sigma raw : ℚ) : ℝ)))))))) ∧
    (∀ z : ℚ, labelOf z =
      if z ≥ 1 then "High focus" else if z ≤ -1 then "Low focus"
      else "Neutral") ∧
    zOf 1 (1/2) (3/2) = 1 ∧
    score 1 (1/2) (3/2) = 77 ∧
    labelOf (zOf 1 (1/2) (3/2)) = "High focus" := by
  have hz : zOf 1 (1/2) (3/2) = 1 := by
    unfold zOf
    rw [max_eq_left (by norm_num [EPS])]
    norm_num
  refine ⟨fun mu sigma raw => rfl, fun z => rfl, hz, ?_, ?_⟩
  · have harg : (LOGISTIC_GAIN * zOf 1 (1/2) (3/2) : ℚ) = 6/5 := by
      rw [hz]
      norm_num [LOGISTIC_GAIN]
    unfold score
    rw [harg]
    rw [show ((6/5 : ℚ) : ℝ) = (6/5 : ℝ) by norm_num]
    rw [pyRound_sigmoid_six_fifths]
    norm_num
  · rw [hz]
    norm_num [labelOf, HIGH_Z]

end Brainbit
